import Mathlib

/-!
Verification of the business-description cosine-similarity pipeline.

The development shallowly embeds the pipeline's components:

* `dot` / `cosSim` — the cosine-similarity score `dot(a,b)/(|a||b|)` that
  `sentence_transformers.util.cos_sim` computes on embedding vectors; vectors
  are modelled as rational-coefficient lists, scores as real numbers.
* `is_similar_to_non_similar`, `companies_to_exclude`, `filter_non_similar` —
  `src/filtering_non_similar_companies.py`.  A `torch` reduction over an empty
  score tensor raises at runtime, so `max` over an empty score list is modelled
  as `Option.none` and the error propagates through the filter.
* `topk`, `buildResults`, `find_top_similar` — `src/similarity.py`.
  `torch.topk` raises when `k` exceeds the number of scores, modelled as
  `none`; the returned values are sorted descending (tie order among equal
  scores is not documented by the library; the model determinises it as the
  stable by-index order, and no theorem below about other claims depends on
  that choice).
* `renameColumn`, `explodeSentences`, `load_data` — `src/data_preprocessing.py`
  over a parsed CSV table.  `DataFrame.rename` silently skips absent columns;
  `df["business_description"]` raises a key error when the column is missing;
  `DataFrame.explode` turns an empty sentence list into a single row whose
  sentence cell is the missing value (`NaN`), modelled as `Option.none`.

The sentence-embedding model itself (`model.encode`) is an opaque pretrained
network; it is a parameter `encode : String → Vec` of every definition below,
exactly as precise weights are external to the repository.
-/

namespace BizSim

/-! ### Embedding vectors and cosine similarity -/

/-- An embedding vector, one coordinate per dimension. -/
abbrev Vec := List ℚ

/-- Dot product of two vectors (coordinatewise product, summed). -/
def dot (a b : Vec) : ℚ :=
  (List.zipWith (fun x y => x * y) a b).sum

/-- Cosine similarity `dot(a,b) / (|a| * |b|)`, the score computed by
`sentence_transformers.util.cos_sim`.  Division by a zero norm yields `0`
(Lean's division-by-zero convention); such scores never arise for the unit
vectors the library produces. -/
noncomputable def cosSim (a b : Vec) : ℝ :=
  ((dot a b : ℚ) : ℝ) / (Real.sqrt ((dot a a : ℚ) : ℝ) * Real.sqrt ((dot b b : ℚ) : ℝ))

/-! ### Similarity scores are rounded to 4 decimals for reporting -/

/-- Rounding to 4 decimal places, as `round(score.item(), 4)` does for
reported scores. -/
noncomputable def round4 (x : ℝ) : ℝ :=
  ((round (x * 10000) : ℤ) : ℝ) / 10000

/-! ### Data model -/

/-- One row of the sentence-expanded table `df_expanded`: a company name, its
full business description, and one individual sentence of that description. -/
structure SentenceRow where
  company_name : String
  business_description : String
  individual_sentences : String
deriving DecidableEq

/-- One row of the result table built by `find_top_similar`. -/
structure ResultRow where
  company_name : String
  business_description : String
  similar_sentence : String
  similarity_score : ℝ

/-! ### Non-similarity filter (`src/filtering_non_similar_companies.py`) -/

/-- Model of `is_similar_to_non_similar`: the cosine scores of one sentence
embedding against every excluded-reference embedding are reduced with `max`
and compared against the threshold.  `torch.max` raises on an empty tensor,
so an empty reference list yields `none`. -/
noncomputable def is_similar_to_non_similar (description_embedding : Vec)
    (non_similar_embeddings : List Vec) (threshold : ℝ) : Option Bool :=
  (List.max? (non_similar_embeddings.map (cosSim description_embedding))).map
    (fun m => decide (threshold ≤ m))

/-- The per-company loop body of `filter_non_similar`: scan the company's
sentence embeddings, stopping at the first similar one (`break`); a raised
error (`none`) propagates. -/
noncomputable def anySimilarSentence (non_similar_embeddings : List Vec)
    (threshold : ℝ) : List Vec → Option Bool
  | [] => some false
  | e :: es =>
    match is_similar_to_non_similar e non_similar_embeddings threshold with
    | none => none
    | some true => some true
    | some false => anySimilarSentence non_similar_embeddings threshold es

/-- The sentences of the rows of one `groupby("company_name")` group, in row
order. -/
def companySentences (df_expanded : List SentenceRow) (c : String) : List String :=
  (df_expanded.filter (fun r => r.company_name == c)).map
    (fun r => r.individual_sentences)

/-- The set `companies_to_exclude` accumulated by the grouped loop of
`filter_non_similar`, one entry per distinct company name.  Only membership in
the result is ever used, so the iteration order of the `groupby` keys is
immaterial; `none` models a raised error. -/
noncomputable def companies_to_exclude (encode : String → Vec)
    (non_similar_embeddings : List Vec) (threshold : ℝ)
    (df_expanded : List SentenceRow) : List String → Option (List String)
  | [] => some []
  | c :: cs =>
    match anySimilarSentence non_similar_embeddings threshold
        ((companySentences df_expanded c).map encode) with
    | none => none
    | some b =>
      match companies_to_exclude encode non_similar_embeddings threshold
          df_expanded cs with
      | none => none
      | some rest => some (if b then c :: rest else rest)

/-- Model of `filter_non_similar(df_expanded, non_similar_sentences,
threshold)`: embed the excluded sentences, collect the excluded companies over
the distinct company names, and keep (in order) the rows whose company is not
excluded — `df_expanded[~df_expanded["company_name"].isin(...)]` followed by
`reset_index(drop=True)`. -/
noncomputable def filter_non_similar (encode : String → Vec)
    (df_expanded : List SentenceRow) (non_similar_sentences : List String)
    (threshold : ℝ) : Option (List SentenceRow) :=
  match companies_to_exclude encode (non_similar_sentences.map encode) threshold
      df_expanded ((df_expanded.map (fun r => r.company_name)).dedup) with
  | none => none
  | some excl =>
    some (df_expanded.filter (fun r => !decide (r.company_name ∈ excl)))

open Classical in
/-- Restatement of the spec's filter contract in its own words, for the
refinement claim C1: keep exactly the rows of companies that have no sentence
scoring at or above the threshold against any excluded reference sentence,
preserving order. -/
noncomputable def specFilter (encode : String → Vec)
    (df_expanded : List SentenceRow) (non_similar_sentences : List String)
    (threshold : ℝ) : List SentenceRow :=
  df_expanded.filter (fun r =>
    !decide (∃ s ∈ df_expanded, s.company_name = r.company_name ∧
      ∃ t ∈ non_similar_sentences,
        threshold ≤ cosSim (encode s.individual_sentences) (encode t)))

/-! ### Similarity ranker (`src/similarity.py`) -/

/-- Ordering used to determinise `torch.topk`: higher score first; among equal
scores, smaller original index first. -/
def lexBetter (p q : ℕ × ℝ) : Prop :=
  q.2 < p.2 ∨ (p.2 = q.2 ∧ p.1 ≤ q.1)

noncomputable instance : DecidableRel lexBetter :=
  fun _ _ => inferInstanceAs (Decidable (_ ∨ _))

instance : IsTrans (ℕ × ℝ) lexBetter := by
  constructor
  intro a b c hab hbc
  rcases hab with h₁ | ⟨h₁, h₂⟩ <;> rcases hbc with h₃ | ⟨h₃, h₄⟩
  · exact Or.inl (lt_trans h₃ h₁)
  · exact Or.inl (h₃ ▸ h₁)
  · exact Or.inl (h₁ ▸ h₃)
  · exact Or.inr ⟨h₁.trans h₃, le_trans h₂ h₄⟩

instance : IsTotal (ℕ × ℝ) lexBetter := by
  constructor
  intro a b
  rcases lt_trichotomy a.2 b.2 with h | h | h
  · exact Or.inr (Or.inl h)
  · rcases le_total a.1 b.1 with h' | h'
    · exact Or.inl (Or.inr ⟨h, h'⟩)
    · exact Or.inr (Or.inr ⟨h.symm, h'⟩)
  · exact Or.inl (Or.inl h)

/-- Model of `torch.topk(cosine_scores, k=top_k)`: raises (`none`) when `k`
exceeds the number of scores; otherwise returns `k` (index, score) pairs with
the highest scores, scores descending. -/
noncomputable def topk (cosine_scores : List ℝ) (k : ℕ) : Option (List (ℕ × ℝ)) :=
  if k ≤ cosine_scores.length then
    some ((List.insertionSort lexBetter cosine_scores.enum).take k)
  else none

/-- The result-building loop of `find_top_similar`: one `ResultRow` per
(index, score) pair, looking the row metadata up positionally (`iloc`); an
out-of-range index raises (`none`). -/
noncomputable def buildResults (data : List SentenceRow) :
    List (ℕ × ℝ) → Option (List ResultRow)
  | [] => some []
  | p :: ps =>
    match data[p.1]? with
    | none => none
    | some row =>
      match buildResults data ps with
      | none => none
      | some rest =>
        some (⟨row.company_name, row.business_description,
          row.individual_sentences, round4 p.2⟩ :: rest)

/-- Model of `find_top_similar(input_texts, bd_embeddings, data, top_k)`:
lowercase and embed every query, score the first query embedding against every
candidate embedding (`util.cos_sim(...)[0]`), select the top `k`, and build
the result rows.  An empty query list makes the row indexing `[0]` raise
(`none`). -/
noncomputable def find_top_similar (encode : String → Vec)
    (input_texts : List String) (bd_embeddings : List Vec)
    (data : List SentenceRow) (top_k : ℕ) : Option (List ResultRow) :=
  match (input_texts.map (fun t => t.toLower)).map encode with
  | [] => none
  | q :: _ =>
    match topk (bd_embeddings.map (cosSim q)) top_k with
    | none => none
    | some top_results => buildResults data top_results

/-! ### Preprocessor (`src/data_preprocessing.py`) -/

/-- A parsed comma-separated input table: a header row naming the columns and
one list of cells per data row. -/
structure Csv where
  header : List String
  rows : List (List String)

/-- One row of the expanded table produced by `load_data`.  The company name
is `none` when the renamed table has no `company_name` column (the access that
would fail happens only downstream); the sentence is `none` for the `NaN` that
`DataFrame.explode` leaves on an empty sentence list. -/
structure ExpandedRow where
  company_name : Option String
  business_description : String
  individual_sentences : Option String
deriving DecidableEq

/-- Errors surfaced by `load_data`; `keyError` models the `KeyError` raised by
`df["business_description"]` when the column is absent. -/
inductive LoadError where
  | keyError
deriving DecidableEq

/-- The column renaming `{"Company Name": "company_name", "Business
Description": "business_description"}`; `DataFrame.rename` leaves every other
column name unchanged and silently skips absent keys. -/
def renameColumn (c : String) : String :=
  if c = "Company Name" then "company_name"
  else if c = "Business Description" then "business_description"
  else c

/-- Cell of a row at a column position. -/
def cellAt (row : List String) (i : ℕ) : String :=
  row.getD i ""

/-- Model of `DataFrame.explode("sentences")` for one source row: one output
row per sentence, and a single row with a missing (`NaN`) sentence when the
sentence list is empty. -/
def explodeSentences (comp : Option String) (bd : String) :
    List String → List ExpandedRow
  | [] => [⟨comp, bd, none⟩]
  | l => l.map (fun s => ⟨comp, bd, some s⟩)

/-- Model of `load_data`: rename the columns, lowercase the description,
segment it with the tokenizer (NLTK `sent_tokenize`, a parameter), and explode
to one row per sentence.  Only the `business_description` column access can
fail; a missing `company_name` column goes unnoticed here. -/
def load_data (tokenize : String → List String) (csv : Csv) :
    Except LoadError (List ExpandedRow) :=
  match List.indexOf? "business_description" (csv.header.map renameColumn) with
  | none => Except.error LoadError.keyError
  | some j =>
    Except.ok (csv.rows.flatMap (fun row =>
      explodeSentences
        ((List.indexOf? "company_name" (csv.header.map renameColumn)).map
          (fun i => cellAt row i))
        (cellAt row j)
        (tokenize (cellAt row j).toLower)))

/-! ### Facts about cosine similarity and rounding -/

theorem dot_self_nonneg (a : Vec) : 0 ≤ dot a a := by
  induction a with
  | nil => simp [dot]
  | cons x as ih =>
    have h : dot (x :: as) (x :: as) = x * x + dot as as := by
      simp [dot, List.zipWith]
    rw [h]
    have := mul_self_nonneg x
    linarith

theorem dot_cauchy_schwarz : ∀ a b : Vec, dot a b * dot a b ≤ dot a a * dot b b
  | [], b => by simp [dot]
  | x :: as, [] => by simp [dot, dot_self_nonneg]
  | x :: as, y :: bs => by
    have ih := dot_cauchy_schwarz as bs
    have hA := dot_self_nonneg as
    have hB := dot_self_nonneg bs
    have h₁ : dot (x :: as) (y :: bs) = x * y + dot as bs := by
      simp [dot, List.zipWith]
    have h₂ : dot (x :: as) (x :: as) = x * x + dot as as := by
      simp [dot, List.zipWith]
    have h₃ : dot (y :: bs) (y :: bs) = y * y + dot bs bs := by
      simp [dot, List.zipWith]
    rw [h₁, h₂, h₃]
    rcases eq_or_lt_of_le hA with hA0 | hApos
    · have hd : dot as bs * dot as bs ≤ 0 := by
        calc dot as bs * dot as bs ≤ dot as as * dot bs bs := ih
        _ = 0 := by rw [← hA0]; ring
      have hd0 : dot as bs = 0 := by
        have := mul_self_nonneg (dot as bs)
        nlinarith
      rw [hd0, ← hA0]
      nlinarith [mul_self_nonneg x, mul_self_nonneg y, mul_self_nonneg (x * y),
        mul_nonneg (mul_self_nonneg x) hB]
    · nlinarith [sq_nonneg (x * dot as bs - y * dot as as), sq_nonneg x,
        mul_nonneg (sub_nonneg.mpr ih) (sq_nonneg x),
        mul_nonneg (sub_nonneg.mpr ih) (le_of_lt hApos)]

theorem abs_cosSim_le_one (a b : Vec) : |cosSim a b| ≤ 1 := by
  unfold cosSim
  set p : ℝ := ((dot a b : ℚ) : ℝ) with hp
  set A : ℝ := ((dot a a : ℚ) : ℝ) with hA
  set B : ℝ := ((dot b b : ℚ) : ℝ) with hB
  have hA0 : 0 ≤ A := by rw [hA]; exact_mod_cast dot_self_nonneg a
  have hB0 : 0 ≤ B := by rw [hB]; exact_mod_cast dot_self_nonneg b
  have hcs : p * p ≤ A * B := by
    rw [hp, hA, hB]
    exact_mod_cast dot_cauchy_schwarz a b
  have habs : |p| ≤ Real.sqrt A * Real.sqrt B := by
    have h1 : Real.sqrt (p * p) ≤ Real.sqrt (A * B) := Real.sqrt_le_sqrt hcs
    have h2 : Real.sqrt (p * p) = |p| := by
      rw [← sq]; exact Real.sqrt_sq_eq_abs p
    have h3 : Real.sqrt (A * B) = Real.sqrt A * Real.sqrt B := Real.sqrt_mul hA0 B
    rw [h2, h3] at h1
    exact h1
  rcases eq_or_lt_of_le (mul_nonneg (Real.sqrt_nonneg A) (Real.sqrt_nonneg B)) with hD | hD
  · rw [← hD, div_zero]
    norm_num
  · rw [abs_div, abs_of_pos hD]
    exact (div_le_one hD).mpr habs

theorem round4_mono {x y : ℝ} (h : x ≤ y) : round4 x ≤ round4 y := by
  unfold round4
  have hr : round (x * 10000) ≤ round (y * 10000) := by
    rw [round_eq, round_eq]
    exact Int.floor_mono (by linarith)
  have : ((round (x * 10000) : ℤ) : ℝ) ≤ ((round (y * 10000) : ℤ) : ℝ) := by
    exact_mod_cast hr
  linarith

theorem round4_le_one {x : ℝ} (h : x ≤ 1) : round4 x ≤ 1 := by
  unfold round4
  have hr : round (x * 10000) ≤ round ((10000 : ℝ)) := by
    rw [round_eq, round_eq]
    exact Int.floor_mono (by linarith)
  have h10 : round ((10000 : ℝ)) = (10000 : ℤ) := by
    have h := @round_intCast ℝ _ _ 10000
    exact_mod_cast h
  rw [h10] at hr
  have : ((round (x * 10000) : ℤ) : ℝ) ≤ 10000 := by exact_mod_cast hr
  linarith

theorem neg_one_le_round4 {x : ℝ} (h : -1 ≤ x) : -1 ≤ round4 x := by
  unfold round4
  have hr : round ((-10000 : ℝ)) ≤ round (x * 10000) := by
    rw [round_eq, round_eq]
    exact Int.floor_mono (by linarith)
  have h10 : round ((-10000 : ℝ)) = (-10000 : ℤ) := by
    have h := @round_intCast ℝ _ _ (-10000)
    exact_mod_cast h
  rw [h10] at hr
  have : (-10000 : ℝ) ≤ ((round (x * 10000) : ℤ) : ℝ) := by exact_mod_cast hr
  linarith

/-! ### Behaviour of the non-similarity filter -/

theorem le_foldl_max_iff (thr a : ℝ) (l : List ℝ) :
    thr ≤ l.foldl max a ↔ thr ≤ a ∨ ∃ x ∈ l, thr ≤ x := by
  induction l generalizing a with
  | nil => simp
  | cons b bs ih =>
    rw [List.foldl_cons, ih]
    simp only [le_max_iff, List.mem_cons]
    constructor
    · rintro ((h | h) | ⟨x, hx, h⟩)
      · exact Or.inl h
      · exact Or.inr ⟨b, Or.inl rfl, h⟩
      · exact Or.inr ⟨x, Or.inr hx, h⟩
    · rintro (h | ⟨x, hx | hx, h⟩)
      · exact Or.inl (Or.inl h)
      · exact Or.inl (Or.inr (hx ▸ h))
      · exact Or.inr ⟨x, hx, h⟩

theorem is_similar_spec (e : Vec) (refs : List Vec) (thr : ℝ) (h : refs ≠ []) :
    ∃ b, is_similar_to_non_similar e refs thr = some b ∧
      (b = true ↔ ∃ v ∈ refs, thr ≤ cosSim e v) := by
  cases refs with
  | nil => exact absurd rfl h
  | cons v vs =>
    refine ⟨decide (thr ≤ (vs.map (cosSim e)).foldl max (cosSim e v)), rfl, ?_⟩
    rw [decide_eq_true_iff, le_foldl_max_iff]
    constructor
    · rintro (h' | ⟨x, hx, h'⟩)
      · exact ⟨v, List.mem_cons_self v vs, h'⟩
      · obtain ⟨w, hw, rfl⟩ := List.mem_map.mp hx
        exact ⟨w, List.mem_cons_of_mem v hw, h'⟩
    · rintro ⟨w, hw, h'⟩
      rcases List.mem_cons.mp hw with rfl | hw
      · exact Or.inl h'
      · exact Or.inr ⟨cosSim e w, List.mem_map_of_mem _ hw, h'⟩

theorem anySimilarSentence_spec (refs : List Vec) (thr : ℝ) (h : refs ≠ []) :
    ∀ es : List Vec, ∃ b, anySimilarSentence refs thr es = some b ∧
      (b = true ↔ ∃ e ∈ es, ∃ v ∈ refs, thr ≤ cosSim e v)
  | [] => ⟨false, rfl, by simp⟩
  | e :: es => by
    obtain ⟨b₁, hb₁, hiff₁⟩ := is_similar_spec e refs thr h
    obtain ⟨b₂, hb₂, hiff₂⟩ := anySimilarSentence_spec refs thr h es
    cases b₁ with
    | true =>
      refine ⟨true, ?_, ?_⟩
      · unfold anySimilarSentence
        rw [hb₁]
      · simp only [true_iff]
        exact ⟨e, List.mem_cons_self e es, hiff₁.mp rfl⟩
    | false =>
      refine ⟨b₂, ?_, ?_⟩
      · unfold anySimilarSentence
        rw [hb₁]
        exact hb₂
      · rw [hiff₂]
        constructor
        · rintro ⟨e', he', hv⟩
          exact ⟨e', List.mem_cons_of_mem e he', hv⟩
        · rintro ⟨e', he', hv⟩
          rcases List.mem_cons.mp he' with rfl | he'
          · exact absurd (hiff₁.mpr hv) Bool.false_ne_true
          · exact ⟨e', he', hv⟩

theorem mem_companySentences_embed (encode : String → Vec)
    (df : List SentenceRow) (cname : String) (refs : List Vec) (thr : ℝ) :
    (∃ e ∈ (companySentences df cname).map encode, ∃ v ∈ refs, thr ≤ cosSim e v) ↔
    (∃ r ∈ df, r.company_name = cname ∧
      ∃ v ∈ refs, thr ≤ cosSim (encode r.individual_sentences) v) := by
  constructor
  · rintro ⟨e, he, hv⟩
    obtain ⟨s, hs, rfl⟩ := List.mem_map.mp he
    obtain ⟨r, hr, rfl⟩ := List.mem_map.mp hs
    have hrc := List.mem_filter.mp hr
    exact ⟨r, hrc.1, by simpa using hrc.2, hv⟩
  · rintro ⟨r, hr, hc, hv⟩
    refine ⟨encode r.individual_sentences, ?_, hv⟩
    exact List.mem_map_of_mem _
      (List.mem_map_of_mem _ (List.mem_filter.mpr ⟨hr, by simp [hc]⟩))

theorem companies_to_exclude_spec (encode : String → Vec) (refs : List Vec)
    (thr : ℝ) (df : List SentenceRow) (h : refs ≠ []) :
    ∀ cs : List String, ∃ l,
      companies_to_exclude encode refs thr df cs = some l ∧
      ∀ c, c ∈ l ↔ c ∈ cs ∧ ∃ r ∈ df, r.company_name = c ∧
        ∃ v ∈ refs, thr ≤ cosSim (encode r.individual_sentences) v
  | [] => ⟨[], rfl, by simp⟩
  | c :: cs => by
    obtain ⟨b, hb, hbiff⟩ :=
      anySimilarSentence_spec refs thr h ((companySentences df c).map encode)
    obtain ⟨l, hl, hliff⟩ := companies_to_exclude_spec encode refs thr df h cs
    have hcond := hbiff.trans (mem_companySentences_embed encode df c refs thr)
    cases b with
    | true =>
      refine ⟨c :: l, ?_, ?_⟩
      · unfold companies_to_exclude
        rw [hb, hl]
        rfl
      · intro c'
        simp only [List.mem_cons]
        constructor
        · rintro (rfl | hc')
          · exact ⟨Or.inl rfl, hcond.mp rfl⟩
          · obtain ⟨hcs, hx⟩ := (hliff c').mp hc'
            exact ⟨Or.inr hcs, hx⟩
        · rintro ⟨rfl | hcs, hx⟩
          · exact Or.inl rfl
          · exact Or.inr ((hliff c').mpr ⟨hcs, hx⟩)
    | false =>
      refine ⟨l, ?_, ?_⟩
      · unfold companies_to_exclude
        rw [hb, hl]
        rfl
      · intro c'
        rw [hliff c']
        simp only [List.mem_cons]
        constructor
        · rintro ⟨hcs, hx⟩
          exact ⟨Or.inr hcs, hx⟩
        · rintro ⟨rfl | hcs, hx⟩
          · exact absurd (hcond.mpr hx) Bool.false_ne_true
          · exact ⟨hcs, hx⟩

theorem is_similar_mono {t₁ t₂ : ℝ} (h : t₁ ≤ t₂) (e : Vec) (refs : List Vec)
    (b₂ : Bool) (hb : is_similar_to_non_similar e refs t₂ = some b₂) :
    ∃ b₁, is_similar_to_non_similar e refs t₁ = some b₁ ∧
      (b₂ = true → b₁ = true) := by
  cases refs with
  | nil => simp [is_similar_to_non_similar] at hb
  | cons v vs =>
    have hb' : decide (t₂ ≤ (vs.map (cosSim e)).foldl max (cosSim e v)) = b₂ :=
      Option.some_inj.mp hb
    refine ⟨decide (t₁ ≤ (vs.map (cosSim e)).foldl max (cosSim e v)), rfl, ?_⟩
    intro h₂
    rw [decide_eq_true_iff]
    rw [← hb', decide_eq_true_iff] at h₂
    exact le_trans h h₂

theorem anySimilarSentence_mono {t₁ t₂ : ℝ} (h : t₁ ≤ t₂) (refs : List Vec) :
    ∀ es b₂, anySimilarSentence refs t₂ es = some b₂ →
      ∃ b₁, anySimilarSentence refs t₁ es = some b₁ ∧ (b₂ = true → b₁ = true)
  | [], b₂, hb => by
    refine ⟨false, rfl, ?_⟩
    intro h₂
    rw [← Option.some_inj.mp hb] at h₂
    exact h₂
  | e :: es, b₂, hb => by
    cases his : is_similar_to_non_similar e refs t₂ with
    | none =>
      unfold anySimilarSentence at hb
      rw [his] at hb
      exact absurd hb (by simp)
    | some b =>
      obtain ⟨b₁, hb₁, himp⟩ := is_similar_mono h e refs b his
      unfold anySimilarSentence at hb
      rw [his] at hb
      cases b with
      | true =>
        have hb₂ : true = b₂ := Option.some_inj.mp hb
        rw [himp rfl] at hb₁
        refine ⟨true, ?_, fun _ => rfl⟩
        unfold anySimilarSentence
        rw [hb₁]
      | false =>
        obtain ⟨b₂', hrec, himp'⟩ := anySimilarSentence_mono h refs es b₂ hb
        cases b₁ with
        | true =>
          refine ⟨true, ?_, fun _ => rfl⟩
          unfold anySimilarSentence
          rw [hb₁]
        | false =>
          refine ⟨b₂', ?_, himp'⟩
          unfold anySimilarSentence
          rw [hb₁]
          exact hrec

theorem companies_to_exclude_mono {t₁ t₂ : ℝ} (h : t₁ ≤ t₂)
    (encode : String → Vec) (refs : List Vec) (df : List SentenceRow) :
    ∀ cs l₂, companies_to_exclude encode refs t₂ df cs = some l₂ →
      ∃ l₁, companies_to_exclude encode refs t₁ df cs = some l₁ ∧ l₂ ⊆ l₁
  | [], l₂, hl => by
    refine ⟨[], rfl, ?_⟩
    rw [← Option.some_inj.mp hl]
    exact List.nil_subset _
  | c :: cs, l₂, hl => by
    cases hany : anySimilarSentence refs t₂ ((companySentences df c).map encode) with
    | none =>
      unfold companies_to_exclude at hl
      rw [hany] at hl
      exact absurd hl (by simp)
    | some b =>
      unfold companies_to_exclude at hl
      rw [hany] at hl
      cases hrec : companies_to_exclude encode refs t₂ df cs with
      | none =>
        rw [hrec] at hl
        exact absurd hl (by simp)
      | some rest =>
        rw [hrec] at hl
        obtain ⟨b₁, hb₁, himp⟩ := anySimilarSentence_mono h refs _ b hany
        obtain ⟨rest₁, hrest₁, hsub⟩ :=
          companies_to_exclude_mono h encode refs df cs rest hrec
        refine ⟨if b₁ then c :: rest₁ else rest₁, ?_, ?_⟩
        · unfold companies_to_exclude
          rw [hb₁, hrest₁]
        · rw [← Option.some_inj.mp hl]
          cases b with
          | true =>
            rw [himp rfl]
            simpa using List.cons_subset_cons c hsub
          | false =>
            cases b₁ with
            | true =>
              simpa using List.Subset.trans hsub (List.subset_cons_self c rest₁)
            | false =>
              simpa using hsub

/-! ### Claims about the non-similarity filter (C1, C3, C5) -/

/-- Claim C1 (amended): for every input row table, every NON-EMPTY
excluded-sentence list and every threshold, `filter_non_similar` returns
exactly those input rows whose company has no sentence with cosine similarity
at or above the threshold against any excluded reference sentence, in the
input's relative order (`specFilter` is the spec-side description of that row
set).  The non-emptiness hypothesis is forced by
`claim1_empty_list_counterexample`. -/
theorem claim1_filter_contract (encode : String → Vec)
    (df_expanded : List SentenceRow) (non_similar_sentences : List String)
    (threshold : ℝ) (h : non_similar_sentences ≠ []) :
    filter_non_similar encode df_expanded non_similar_sentences threshold =
      some (specFilter encode df_expanded non_similar_sentences threshold) := by
  have hrefs : non_similar_sentences.map encode ≠ [] := by
    intro hc
    exact h (List.map_eq_nil_iff.mp hc)
  obtain ⟨l, hl, hmem⟩ :=
    companies_to_exclude_spec encode (non_similar_sentences.map encode)
      threshold df_expanded hrefs
      ((df_expanded.map (fun r => r.company_name)).dedup)
  unfold filter_non_similar
  rw [hl]
  show some (df_expanded.filter (fun r => !decide (r.company_name ∈ l))) = _
  unfold specFilter
  congr 1
  apply List.filter_congr
  intro r hr
  congr 1
  rw [decide_eq_decide, hmem r.company_name]
  constructor
  · rintro ⟨-, s, hs, hsc, v, hv, hscore⟩
    obtain ⟨t, ht, rfl⟩ := List.mem_map.mp hv
    exact ⟨s, hs, hsc, t, ht, hscore⟩
  · rintro ⟨s, hs, hsc, t, ht, hscore⟩
    refine ⟨List.mem_dedup.mpr (List.mem_map_of_mem _ hr),
      s, hs, hsc, encode t, List.mem_map_of_mem _ ht, hscore⟩

/-- Witness for C1 at a concrete input. -/
theorem claim1_filter_contract_witness :
    (["consumer loans"] : List String) ≠ [] ∧
    filter_non_similar (fun _ => [1]) [⟨"Alpha", "d", "s"⟩] ["consumer loans"]
        (6 / 10) =
      some (specFilter (fun _ => [1]) [⟨"Alpha", "d", "s"⟩] ["consumer loans"]
        (6 / 10)) :=
  ⟨by decide,
    claim1_filter_contract (fun _ => [1]) [⟨"Alpha", "d", "s"⟩]
      ["consumer loans"] (6 / 10) (by decide)⟩

/-- Counterexample for C1 as stated: with an EMPTY excluded-sentence list and
a non-empty table, the code raises (the `max` reduction over an empty score
tensor) instead of returning the rows the contract promises, so the claim's
universal quantification over excluded-sentence lists fails. -/
theorem claim1_empty_list_counterexample :
    filter_non_similar (fun _ => [1]) [⟨"Beta", "d", "s"⟩] [] (6 / 10) ≠
      some (specFilter (fun _ => [1]) [⟨"Beta", "d", "s"⟩] [] (6 / 10)) := by
  intro hcontradiction
  exact Option.noConfusion hcontradiction

/-- Claim C3: the spec requires that filtering with an empty excluded-sentence
list return the input unchanged; the code instead raises at the first company
it examines, because the cosine-score tensor against an empty reference set is
empty and `torch` reductions over empty tensors raise.  This theorem evaluates
the model at the spec's own failing input: one row, empty excluded list. -/
theorem claim3_empty_excluded_list_raises :
    filter_non_similar (fun _ => [1]) [⟨"Alpha Consulting", "d", "s"⟩] []
      (6 / 10) = none := rfl

/-- Claim C5: for fixed data and excluded sentences, raising the threshold
never adds an excluded company: the companies excluded at the larger threshold
are a subset of those excluded at the smaller one.  When the filter raises
(empty excluded-sentence list), both exclusion sets are read as empty. -/
theorem claim5_threshold_monotone (encode : String → Vec)
    (df_expanded : List SentenceRow) (non_similar_sentences : List String)
    (t₁ t₂ : ℝ) (h : t₁ ≤ t₂) :
    (companies_to_exclude encode (non_similar_sentences.map encode) t₂
        df_expanded
        ((df_expanded.map (fun r => r.company_name)).dedup)).getD [] ⊆
    (companies_to_exclude encode (non_similar_sentences.map encode) t₁
        df_expanded
        ((df_expanded.map (fun r => r.company_name)).dedup)).getD [] := by
  cases h₂ : companies_to_exclude encode (non_similar_sentences.map encode) t₂
      df_expanded ((df_expanded.map (fun r => r.company_name)).dedup) with
  | none =>
    rw [Option.getD_none]
    exact List.nil_subset _
  | some l₂ =>
    obtain ⟨l₁, hl₁, hsub⟩ :=
      companies_to_exclude_mono h encode (non_similar_sentences.map encode)
        df_expanded ((df_expanded.map (fun r => r.company_name)).dedup) l₂ h₂
    rw [hl₁, Option.getD_some, Option.getD_some]
    exact hsub

/-- Witness for C5 at a concrete input. -/
theorem claim5_threshold_monotone_witness :
    ((1 : ℝ) / 2 ≤ 6 / 10) ∧
    (companies_to_exclude (fun _ => [1]) (["x"].map (fun _ => [1])) (6 / 10)
        [⟨"Alpha", "d", "s"⟩]
        (([⟨"Alpha", "d", "s"⟩].map
          (fun (r : SentenceRow) => r.company_name)).dedup)).getD [] ⊆
    (companies_to_exclude (fun _ => [1]) (["x"].map (fun _ => [1])) (1 / 2)
        [⟨"Alpha", "d", "s"⟩]
        (([⟨"Alpha", "d", "s"⟩].map
          (fun (r : SentenceRow) => r.company_name)).dedup)).getD [] :=
  ⟨by norm_num,
    claim5_threshold_monotone (fun _ => [1]) [⟨"Alpha", "d", "s"⟩] ["x"]
      (1 / 2) (6 / 10) (by norm_num)⟩

/-! ### Behaviour of the similarity ranker -/

theorem forall₂_mem_right {α β : Type _} {R : α → β → Prop} :
    ∀ {l : List α} {m : List β}, List.Forall₂ R l m →
      ∀ b ∈ m, ∃ a ∈ l, R a b := by
  intro l m h
  induction h with
  | nil => simp
  | @cons a b l' m' hR hF ih =>
    intro y hy
    rcases List.mem_cons.mp hy with rfl | hy
    · exact ⟨a, List.mem_cons_self a l', hR⟩
    · obtain ⟨x, hx, hr⟩ := ih y hy
      exact ⟨x, List.mem_cons_of_mem a hx, hr⟩

theorem pairwise_of_forall₂ {α β : Type _} {R : α → β → Prop}
    {S : α → α → Prop} {T : β → β → Prop}
    (hi : ∀ a a' b b', R a b → R a' b' → S a a' → T b b') :
    ∀ {l : List α} {m : List β}, List.Forall₂ R l m → List.Pairwise S l →
      List.Pairwise T m := by
  intro l m hF
  induction hF with
  | nil => intro _; exact List.Pairwise.nil
  | @cons a b l' m' hR hF ih =>
    intro hp
    rcases List.pairwise_cons.mp hp with ⟨hall, hp'⟩
    refine List.Pairwise.cons ?_ (ih hp')
    intro y hy
    obtain ⟨x, hx, hRxy⟩ := forall₂_mem_right hF y hy
    exact hi a x b y hR hRxy (hall x hx)

theorem buildResults_spec (data : List SentenceRow) :
    ∀ l : List (ℕ × ℝ), (∀ p ∈ l, p.1 < data.length) →
      ∃ res, buildResults data l = some res ∧ res.length = l.length ∧
        List.Forall₂ (fun (p : ℕ × ℝ) (r : ResultRow) =>
          r.similarity_score = round4 p.2) l res
  | [], _ => ⟨[], rfl, rfl, List.Forall₂.nil⟩
  | p :: ps, h => by
    obtain ⟨res, hres, hlen, hF⟩ :=
      buildResults_spec data ps (fun q hq => h q (List.mem_cons_of_mem p hq))
    have hp : p.1 < data.length := h p (List.mem_cons_self p ps)
    refine ⟨⟨data[p.1].company_name, data[p.1].business_description,
      data[p.1].individual_sentences, round4 p.2⟩ :: res, ?_, ?_, ?_⟩
    · unfold buildResults
      rw [List.getElem?_eq_getElem hp, hres]
    · simp [hlen]
    · exact List.Forall₂.cons rfl hF

theorem topk_eq_some (cosine_scores : List ℝ) (k : ℕ)
    (hk : k ≤ cosine_scores.length) :
    topk cosine_scores k =
      some ((List.insertionSort lexBetter cosine_scores.enum).take k) := by
  unfold topk
  rw [if_pos hk]

theorem topk_mem_enum (cosine_scores : List ℝ) (k : ℕ) (res : List (ℕ × ℝ))
    (h : topk cosine_scores k = some res) :
    ∀ p ∈ res, p ∈ cosine_scores.enum := by
  unfold topk at h
  by_cases hk : k ≤ cosine_scores.length
  · rw [if_pos hk] at h
    obtain rfl := Option.some_inj.mp h
    intro p hp
    have hs : p ∈ List.insertionSort lexBetter cosine_scores.enum :=
      List.Sublist.mem hp (List.take_sublist k _)
    exact (List.perm_insertionSort lexBetter cosine_scores.enum).mem_iff.mp hs
  · rw [if_neg hk] at h
    exact absurd h (by simp)

theorem topk_pairwise (cosine_scores : List ℝ) (k : ℕ) (res : List (ℕ × ℝ))
    (h : topk cosine_scores k = some res) : res.Pairwise lexBetter := by
  unfold topk at h
  by_cases hk : k ≤ cosine_scores.length
  · rw [if_pos hk] at h
    obtain rfl := Option.some_inj.mp h
    exact List.Pairwise.sublist (List.take_sublist k _)
      (List.sorted_insertionSort lexBetter cosine_scores.enum)
  · rw [if_neg hk] at h
    exact absurd h (by simp)

theorem topk_length (cosine_scores : List ℝ) (k : ℕ) (res : List (ℕ × ℝ))
    (h : topk cosine_scores k = some res) :
    res.length = min k cosine_scores.length := by
  unfold topk at h
  by_cases hk : k ≤ cosine_scores.length
  · rw [if_pos hk] at h
    obtain rfl := Option.some_inj.mp h
    rw [List.length_take,
      (List.perm_insertionSort lexBetter cosine_scores.enum).length_eq,
      List.enum_length]
  · rw [if_neg hk] at h
    exact absurd h (by simp)

theorem mem_enum_index_lt (cosine_scores : List ℝ) (p : ℕ × ℝ)
    (h : p ∈ cosine_scores.enum) : p.1 < cosine_scores.length := by
  obtain ⟨hlt, -⟩ :=
    List.getElem?_eq_some_iff.mp (List.mem_enum_iff_getElem?.mp h)
  exact hlt

theorem mem_enum_score_mem (cosine_scores : List ℝ) (p : ℕ × ℝ)
    (h : p ∈ cosine_scores.enum) : p.2 ∈ cosine_scores := by
  obtain ⟨hlt, heq⟩ :=
    List.getElem?_eq_some_iff.mp (List.mem_enum_iff_getElem?.mp h)
  exact heq ▸ List.getElem_mem hlt

/-! ### Claims about the similarity ranker (C2, C7, C10) -/

/-- Claim C2 (amended): for every non-empty query list, candidate embedding
set of size N with parallel metadata, and k ≤ N, the ranker returns exactly
min(k, N) results, sorted by descending (rounded) similarity score, every
score within [-1, 1] — hence within the claimed [-1-ε, 1+ε].  The k ≤ N
hypothesis is forced by `claim2_k_exceeds_counterexample`. -/
theorem claim2_ranker_contract (encode : String → Vec)
    (input_texts : List String) (bd_embeddings : List Vec)
    (data : List SentenceRow) (k : ℕ) (hq : input_texts ≠ [])
    (hk : k ≤ bd_embeddings.length)
    (hdata : data.length = bd_embeddings.length) :
    ∃ res, find_top_similar encode input_texts bd_embeddings data k = some res ∧
      res.length = min k bd_embeddings.length ∧
      res.Pairwise (fun a b => b.similarity_score ≤ a.similarity_score) ∧
      ∀ r ∈ res, -1 ≤ r.similarity_score ∧ r.similarity_score ≤ 1 := by
  cases input_texts with
  | nil => exact absurd rfl hq
  | cons t ts =>
    have hlen : (bd_embeddings.map (cosSim (encode t.toLower))).length =
        bd_embeddings.length := List.length_map bd_embeddings _
    have hk' : k ≤ (bd_embeddings.map (cosSim (encode t.toLower))).length := by
      rw [hlen]
      exact hk
    have hfind : find_top_similar encode (t :: ts) bd_embeddings data k =
        buildResults data
          ((List.insertionSort lexBetter
            (bd_embeddings.map (cosSim (encode t.toLower))).enum).take k) := by
      show (match topk (bd_embeddings.map (cosSim (encode t.toLower))) k with
        | none => none
        | some top_results => buildResults data top_results) = _
      rw [topk_eq_some _ k hk']
    have hmem : ∀ p ∈ (List.insertionSort lexBetter
        (bd_embeddings.map (cosSim (encode t.toLower))).enum).take k,
        p ∈ (bd_embeddings.map (cosSim (encode t.toLower))).enum := by
      intro p hp
      have hs := List.Sublist.mem hp (List.take_sublist k _)
      exact (List.perm_insertionSort lexBetter _).mem_iff.mp hs
    have hidx : ∀ p ∈ (List.insertionSort lexBetter
        (bd_embeddings.map (cosSim (encode t.toLower))).enum).take k,
        p.1 < data.length := by
      intro p hp
      have := mem_enum_index_lt _ p (hmem p hp)
      rw [hdata, ← hlen]
      exact this
    obtain ⟨res, hres, hlen₂, hF⟩ := buildResults_spec data _ hidx
    have hscore : ∀ p ∈ (List.insertionSort lexBetter
        (bd_embeddings.map (cosSim (encode t.toLower))).enum).take k,
        |p.2| ≤ 1 := by
      intro p hp
      have hps := mem_enum_score_mem _ p (hmem p hp)
      obtain ⟨v, -, hveq⟩ := List.mem_map.mp hps
      rw [← hveq]
      exact abs_cosSim_le_one (encode t.toLower) v
    refine ⟨res, by rw [hfind]; exact hres, ?_, ?_, ?_⟩
    · rw [hlen₂, List.length_take,
        (List.perm_insertionSort lexBetter _).length_eq, List.enum_length,
        hlen]
    · have hpl : ((List.insertionSort lexBetter
          (bd_embeddings.map (cosSim (encode t.toLower))).enum).take k).Pairwise
          lexBetter :=
        List.Pairwise.sublist (List.take_sublist k _)
          (List.sorted_insertionSort lexBetter _)
      refine pairwise_of_forall₂ ?_ hF hpl
      intro p p' r r' hR hR' hS
      rw [hR, hR']
      rcases hS with hlt | ⟨heq, -⟩
      · exact round4_mono (le_of_lt hlt)
      · exact round4_mono (le_of_eq heq.symm)
    · intro r hr
      obtain ⟨p, hp, hprel⟩ := forall₂_mem_right hF r hr
      have habs := abs_le.mp (hscore p hp)
      rw [hprel]
      exact ⟨neg_one_le_round4 habs.1, round4_le_one habs.2⟩

/-- Witness for C2 at a concrete input. -/
theorem claim2_ranker_contract_witness :
    (["provides consultancy services."] : List String) ≠ [] ∧
    (1 ≤ ([[1]] : List Vec).length) ∧
    ([⟨"Alpha", "d", "s"⟩] : List SentenceRow).length = ([[1]] : List Vec).length ∧
    ∃ res, find_top_similar (fun _ => [1]) ["provides consultancy services."]
        [[1]] [⟨"Alpha", "d", "s"⟩] 1 = some res ∧
      res.length = min 1 ([[1]] : List Vec).length ∧
      res.Pairwise (fun a b => b.similarity_score ≤ a.similarity_score) ∧
      ∀ r ∈ res, -1 ≤ r.similarity_score ∧ r.similarity_score ≤ 1 :=
  ⟨by decide, by decide, by decide,
    claim2_ranker_contract (fun _ => [1]) ["provides consultancy services."]
      [[1]] [⟨"Alpha", "d", "s"⟩] 1 (by decide) (by decide) (by decide)⟩

/-- Counterexample for C2 as stated: with N = 1 candidate and k = 2, the code
raises (`torch.topk` demands k at most the number of scores) instead of
returning min(k, N) = 1 results, so the claim's universal quantification over
k fails. -/
theorem claim2_k_exceeds_counterexample :
    find_top_similar (fun _ => [1]) ["q"] [[1]] [⟨"A", "d", "s"⟩] 2 = none := rfl

/-- Claim C7: the ranker's output depends only on the first query sentence;
two calls whose query lists share the same head return identical results,
because only row 0 of the cosine-score matrix is ever read. -/
theorem claim7_only_first_query_matters (encode : String → Vec) (q : String)
    (ts₁ ts₂ : List String) (bd_embeddings : List Vec)
    (data : List SentenceRow) (k : ℕ)
    (h₁ : ts₁.head? = some q) (h₂ : ts₂.head? = some q) :
    find_top_similar encode ts₁ bd_embeddings data k =
      find_top_similar encode ts₂ bd_embeddings data k := by
  cases ts₁ with
  | nil => simp at h₁
  | cons a t₁ =>
    cases ts₂ with
    | nil => simp at h₂
    | cons b t₂ =>
      have ha : a = q := by simpa using h₁
      have hb : b = q := by simpa using h₂
      subst ha
      subst hb
      rfl

/-- Witness for C7 at a concrete input. -/
theorem claim7_only_first_query_matters_witness :
    ((["provides consultancy services.", "second query"] :
        List String).head? = some "provides consultancy services.") ∧
    ((["provides consultancy services."] : List String).head? =
        some "provides consultancy services.") ∧
    find_top_similar (fun _ => [1])
        ["provides consultancy services.", "second query"] [[1]]
        [⟨"Alpha", "d", "s"⟩] 1 =
      find_top_similar (fun _ => [1]) ["provides consultancy services."] [[1]]
        [⟨"Alpha", "d", "s"⟩] 1 :=
  ⟨rfl, rfl,
    claim7_only_first_query_matters (fun _ => [1])
      "provides consultancy services."
      ["provides consultancy services.", "second query"]
      ["provides consultancy services."] [[1]] [⟨"Alpha", "d", "s"⟩] 1 rfl rfl⟩

/-- Claim C10: the (index, score) pairs selected by the top-K step carry
pairwise-distinct candidate indices, so no candidate sentence row is reported
twice in one ranked output. -/
theorem claim10_distinct_indices (cosine_scores : List ℝ) (k : ℕ)
    (res : List (ℕ × ℝ)) (h : topk cosine_scores k = some res) :
    (res.map Prod.fst).Nodup := by
  unfold topk at h
  by_cases hk : k ≤ cosine_scores.length
  · rw [if_pos hk] at h
    obtain rfl := Option.some_inj.mp h
    have h₁ : (cosine_scores.enum.map Prod.fst).Nodup := by
      rw [List.enum_map_fst]
      exact List.nodup_range _
    have h₂ : ((List.insertionSort lexBetter cosine_scores.enum).map
        Prod.fst).Nodup :=
      ((List.perm_insertionSort lexBetter cosine_scores.enum).map
        Prod.fst).symm.nodup h₁
    rw [List.map_take]
    exact List.Nodup.sublist (List.take_sublist k _) h₂
  · rw [if_neg hk] at h
    exact absurd h (by simp)

/-- Witness for C10 at a concrete input. -/
theorem claim10_distinct_indices_witness :
    (([((0 : ℕ), (5 : ℝ))].map Prod.fst).Nodup) :=
  claim10_distinct_indices [(5 : ℝ)] 1 [(0, 5)] rfl

/-! ### Behaviour of the preprocessor -/

theorem renameColumn_eq_bd_iff (c : String) :
    renameColumn c = "business_description" ↔
      c = "Business Description" ∨ c = "business_description" := by
  unfold renameColumn
  split_ifs with h₁ h₂
  · subst h₁
    constructor
    · intro h
      exact absurd h (by decide)
    · rintro (h | h) <;> exact absurd h (by decide)
  · subst h₂
    simp
  · constructor
    · intro h
      exact Or.inr h
    · rintro (h | h)
      · exact absurd h h₂
      · exact h

theorem indexOf?_eq_none_iff_not_mem (a : String) (l : List String) :
    List.indexOf? a l = none ↔ a ∉ l := by
  rw [List.indexOf?_eq_none_iff]
  constructor
  · intro hall hmem
    have := hall a hmem
    simp at this
  · intro hnot x hx
    simp only [beq_iff_eq]
    intro hxa
    exact hnot (hxa ▸ hx)

/-! ### Claims about the preprocessor (C4, C8) -/

/-- Claim C4 (amended): a record whose description yields zero detected
sentences after segmentation does NOT vanish: `DataFrame.explode` keeps one
row for it, whose sentence cell is the missing value (`NaN`, modelled `none`),
so the company still appears in the expanded table. -/
theorem claim4_nan_row_emitted (tokenize : String → List String)
    (name desc : String) (pre post : List (List String))
    (h : tokenize desc.toLower = []) :
    ∃ l, load_data tokenize
        ⟨["Company Name", "Business Description"], pre ++ [name, desc] :: post⟩ =
      Except.ok l ∧ (⟨some name, desc, none⟩ : ExpandedRow) ∈ l := by
  refine ⟨_, rfl, ?_⟩
  apply List.mem_flatMap.mpr
  refine ⟨[name, desc], by simp, ?_⟩
  show (⟨some name, desc, none⟩ : ExpandedRow) ∈
    explodeSentences (some name) desc (tokenize desc.toLower)
  rw [h]
  simp [explodeSentences]

/-- Witness for C4's amended claim at a concrete input. -/
theorem claim4_nan_row_emitted_witness :
    ((fun (_ : String) => ([] : List String)) "x".toLower = []) ∧
    ∃ l, load_data (fun _ => [])
        ⟨["Company Name", "Business Description"], [] ++ ["Acme", "x"] :: []⟩ =
      Except.ok l ∧ (⟨some "Acme", "x", none⟩ : ExpandedRow) ∈ l :=
  ⟨rfl, claim4_nan_row_emitted (fun _ => []) "Acme" "x" [] [] rfl⟩

/-- Counterexample for C4 as stated: a company with an empty description (zero
detected sentences) yields ONE expanded row (with a missing sentence value),
not zero rows, so the company does not silently disappear at this stage. -/
theorem claim4_zero_sentence_counterexample :
    load_data (fun _ => [])
        ⟨["Company Name", "Business Description"], [["Acme", ""]]⟩ =
      Except.ok [⟨some "Acme", "", none⟩] ∧
    ([(⟨some "Acme", "", none⟩ : ExpandedRow)].length ≠ 0) :=
  ⟨rfl, by decide⟩

/-- Claim C8 (amended): `load_data` fails (with a key-lookup error) exactly
when the input table has no Business Description column (under either its raw
or its renamed name); a table missing only the Company Name column loads
successfully, because `DataFrame.rename` skips absent keys and `load_data`
never touches `company_name`.  The hypothesis excludes the degenerate table
carrying both spellings at once, where renaming creates duplicate column
labels and the pandas column access would misbehave differently. -/
theorem claim8_load_failure_iff (tokenize : String → List String) (csv : Csv)
    (h : ¬("Business Description" ∈ csv.header ∧
      "business_description" ∈ csv.header)) :
    (load_data tokenize csv).isOk = true ↔
      ("Business Description" ∈ csv.header ∨
        "business_description" ∈ csv.header) := by
  have hmem : "business_description" ∈ csv.header.map renameColumn ↔
      ("Business Description" ∈ csv.header ∨
        "business_description" ∈ csv.header) := by
    rw [List.mem_map]
    constructor
    · rintro ⟨c, hc, hc'⟩
      rcases (renameColumn_eq_bd_iff c).mp hc' with rfl | rfl
      · exact Or.inl hc
      · exact Or.inr hc
    · rintro (hc | hc)
      · exact ⟨"Business Description", hc, (renameColumn_eq_bd_iff _).mpr (Or.inl rfl)⟩
      · exact ⟨"business_description", hc, (renameColumn_eq_bd_iff _).mpr (Or.inr rfl)⟩
  rw [← hmem]
  cases hidx : List.indexOf? "business_description" (csv.header.map renameColumn) with
  | none =>
    have hno := (indexOf?_eq_none_iff_not_mem _ _).mp hidx
    unfold load_data
    rw [hidx]
    simp [Except.isOk, Except.toBool, hno]
  | some j =>
    have hyes : "business_description" ∈ csv.header.map renameColumn := by
      by_contra hno
      rw [← indexOf?_eq_none_iff_not_mem] at hno
      rw [hno] at hidx
      exact Option.noConfusion hidx
    unfold load_data
    rw [hidx]
    simp [Except.isOk, Except.toBool, hyes]

/-- Witness for C8's amended claim at a concrete input. -/
theorem claim8_load_failure_iff_witness :
    (¬("Business Description" ∈ (["Company Name"] : List String) ∧
      "business_description" ∈ (["Company Name"] : List String))) ∧
    ((load_data (fun _ => ["s"]) ⟨["Company Name"], [["Acme"]]⟩).isOk = true ↔
      ("Business Description" ∈ (["Company Name"] : List String) ∨
        "business_description" ∈ (["Company Name"] : List String))) :=
  ⟨by decide,
    claim8_load_failure_iff (fun _ => ["s"]) ⟨["Company Name"], [["Acme"]]⟩
      (by decide)⟩

/-- Counterexample for C8 as stated: a table missing the required Company Name
column (but carrying Business Description) loads successfully — no
`DataFormatError`, no error at all — so the claim fails for that required
column. -/
theorem claim8_missing_company_name_loads :
    ((load_data (fun _ => ["s"]) ⟨["Business Description"], [["text"]]⟩).isOk
      = true) ∧
    ("Company Name" ∉ (["Business Description"] : List String)) :=
  ⟨rfl, by decide⟩

end BizSim
